import Mathlib

/-!
Verification of the gemini-assistant Obsidian plugin.

This file shallowly embeds the vault-facing document-store operations
(`VaultService` in the repository) and the provider-facing chat
orchestration (`GeminiService.chat`, `AnthropicService.chat`,
`ChatGPTService.chat`), and proves or refutes the testable properties of
the specification. Strings are modelled by Lean `String` (a structure over
`List Char`), JavaScript string-library calls (`includes`, single
`replace`, `split`, template literals) by explicit executable functions on
`List Char`, and the Obsidian vault by an association list of file paths
to contents together with a list of folder paths.
-/

/-! ## JavaScript string primitives -/

/-- JS-style substring test on character lists: `s.includes(pat)`. -/
def jsIncludesL (s pat : List Char) : Bool :=
  match s with
  | [] => pat.isEmpty
  | _ :: rest => pat.isPrefixOf s || jsIncludesL rest pat

/-- JS `String.prototype.replace` with a string pattern replaces only the
first occurrence of `pat` in `s` (or inserts `rep` at the front when `pat`
is empty, and leaves `s` unchanged when `pat` does not occur). -/
def jsReplaceFirstL (s pat rep : List Char) : List Char :=
  match s with
  | [] => if pat.isEmpty then rep else []
  | c :: rest =>
    if pat.isPrefixOf (c :: rest) then rep ++ (c :: rest).drop pat.length
    else c :: jsReplaceFirstL rest pat rep

/-- Split a character list at every occurrence of a separator character,
JS `s.split(sep)` with a one-character separator. -/
def splitOnCharL (sep : Char) (l : List Char) : List (List Char) :=
  match l with
  | [] => [[]]
  | c :: rest =>
    match splitOnCharL sep rest with
    | [] => [[]]
    | h :: t => if c = sep then [] :: h :: t else (c :: h) :: t

/-- JS-style substring test on strings: `s.includes(pat)`. -/
def jsIncludes (s pat : String) : Bool := jsIncludesL s.data pat.data

/-- JS `s.replace(pat, rep)` (first occurrence only) on strings. -/
def jsReplaceFirst (s pat rep : String) : String :=
  ⟨jsReplaceFirstL s.data pat.data rep.data⟩

/-! ## Paths

`normalizePath` models the Obsidian library call of the same name: it
canonicalizes separators and drops empty path components. -/

/-- Model of Obsidian `normalizePath`: convert backslashes to slashes,
drop empty components, rejoin with single slashes. -/
def normalizePath (p : String) : String :=
  ⟨List.intercalate ['/']
    (((splitOnCharL '/' (p.data.map (fun c => if c = '\\' then '/' else c))).filter
      (fun comp => ¬ comp.isEmpty)))⟩

/-- Parent path of a normalized path: `p.split('/').slice(0, -1).join('/')`
as done by `VaultService.saveNote` for folder creation. -/
def parentPath (p : String) : String :=
  ⟨List.intercalate ['/'] ((splitOnCharL '/' p.data).dropLast)⟩

/-- Basename of a path, modelling the Obsidian `file.name` field: the
last slash-separated component. -/
def basename (p : String) : String :=
  ⟨(splitOnCharL '/' p.data).getLastD []⟩

/-! ## The vault

The Obsidian vault is modelled as an association list from file paths to
file contents plus a list of existing folder paths.  Operations mirror
`VaultService` (src/unnamed/part_002): each returns the possibly updated
vault together with either a result string or the message of the thrown
error, so that mutations performed before a throw (for example folder
creation) remain visible, as they do in the real vault. -/

structure Vault where
  files : List (String × String)
  folders : List String
deriving DecidableEq, Repr

/-- A path exists when a file or a folder occupies it, mirroring
`vault.getAbstractFileByPath` returning a non-null abstract file. -/
def pathExists (v : Vault) (p : String) : Bool :=
  (v.files.lookup p).isSome || v.folders.contains p

/-- A file (not folder) occupies the path. -/
def isFile (v : Vault) (p : String) : Bool := (v.files.lookup p).isSome

/-- What `getAbstractFileByPath` resolves a path to. -/
inductive VEntry where
  | file (content : String)
  | folder
deriving DecidableEq, Repr

/-- Model of `vault.getAbstractFileByPath`. -/
def getEntry (v : Vault) (p : String) : Option VEntry :=
  match v.files.lookup p with
  | some c => some (.file c)
  | none => if v.folders.contains p then some .folder else none

/-- The per-entry updater applied by `vault.modify`: rewrite the entry at
key `np` to content `c`, leave other entries alone. -/
def updEntry (np c : String) : String × String → String × String :=
  fun e => if e.1 = np then (np, c) else e

/-- Overwrite the content of the file stored at `p`, modelling
`vault.modify`. -/
def modifyFile (v : Vault) (p content : String) : Vault :=
  { v with files := v.files.map (updEntry p content) }

theorem modifyFile_files (v : Vault) (np c : String) :
    (modifyFile v np c).files = v.files.map (updEntry np c) := rfl

/-- All nonempty ancestor paths of a path, shortest first
(`a/b/c ↦ [a, a/b, a/b/c]`). -/
def pathAncestors (p : String) : List String :=
  ((splitOnCharL '/' p.data).foldl
    (fun (acc : List (List Char) × List Char) comp =>
      let q := if acc.2.isEmpty then comp else acc.2 ++ '/' :: comp
      (acc.1 ++ [q], q))
    ([], [])).1.map (fun l => (⟨l⟩ : String))

/-- Model of `vault.createFolder` with the thrown-error-ignored pattern of
`VaultService.saveNote`: create the folder and its missing ancestors; do
nothing when a file blocks any ancestor path or the folder already exists
(the error is swallowed by the caller). -/
def createFolderIgnore (v : Vault) (p : String) : Vault :=
  if (pathAncestors p).any (fun q => isFile v q) then v
  else { v with
         folders := (pathAncestors p).filter (fun q => ¬ v.folders.contains q) ++ v.folders }

/-- Model of `vault.create`: fails when the path is occupied or the parent
folder is missing, otherwise records the new file. -/
def createFile (v : Vault) (p content : String) : Except String Vault :=
  if pathExists v p then .error "File already exists."
  else if parentPath p ≠ "" ∧ ¬ v.folders.contains (parentPath p) then
    .error "Folder does not exist."
  else .ok { v with files := (p, content) :: v.files }

/-! ### VaultService operations -/

/-- `VaultService.readFile`: return the content of the file at the
normalized path, or throw `File not found: <path>`. -/
def readFile (v : Vault) (path : String) : Vault × Except String String :=
  match v.files.lookup (normalizePath path) with
  | some c => (v, .ok c)
  | none => (v, .error ("File not found: " ++ path))

/-- `VaultService.saveNote`: overwrite the existing file, else create the
parent folders (ignoring creation errors) and the file. -/
def saveNote (v : Vault) (filename content : String) : Vault × Except String String :=
  let np := normalizePath filename
  match v.files.lookup np with
  | some _ => (modifyFile v np content, .ok ("Successfully updated note: " ++ np))
  | none =>
    let parent := parentPath np
    let v1 := if parent ≠ "" then createFolderIgnore v parent else v
    match createFile v1 np content with
    | .ok v2 => (v2, .ok ("Successfully created note: " ++ np))
    | .error e => (v1, .error e)

/-- URL-encode forward slashes, `target.replace(/\//g, '%2F')` (a global
regex replace). -/
def encodeSlashes (s : String) : String := s.replace "/" "%2F"

/-- Decode `%2F` back to forward slashes, `target.replace(/%2F/g, '/')`. -/
def decodeSlashes (s : String) : String := s.replace "%2F" "/"

/-- `VaultService.replaceInNote`: try the literal target, then the
slash-encoded variant, then the decoded variant; report `not found` as an
ordinary result string; replace only the first occurrence. -/
def replaceInNote (v : Vault) (path target replacement : String) :
    Vault × Except String String :=
  let np := normalizePath path
  match v.files.lookup np with
  | none => (v, .error ("File not found: " ++ path))
  | some content =>
    if jsIncludes content target then
      (modifyFile v np (jsReplaceFirst content target replacement),
       .ok ("Successfully replaced content in " ++ path))
    else if jsIncludes content (encodeSlashes target) then
      (modifyFile v np (jsReplaceFirst content (encodeSlashes target) replacement),
       .ok ("Successfully replaced content in " ++ path))
    else if jsIncludes content (decodeSlashes target) then
      (modifyFile v np (jsReplaceFirst content (decodeSlashes target) replacement),
       .ok ("Successfully replaced content in " ++ path))
    else (v, .ok ("Target string not found in " ++ path ++ "."))

/-- `VaultService.updateFrontmatter`: patch one front-matter key of an
existing file.  `applyFm` models the Obsidian `processFrontMatter` library
call, whose YAML semantics are external to this repository and unused by
any theorem below. -/
def applyFm (content key value : String) : String :=
  "---\n" ++ key ++ ": " ++ value ++ "\n---\n" ++ content

/-- `VaultService.updateFrontmatter`. -/
def updateFrontmatter (v : Vault) (path key value : String) :
    Vault × Except String String :=
  let np := normalizePath path
  match v.files.lookup np with
  | some c => (modifyFile v np (applyFm c key value),
               .ok ("Successfully updated frontmatter for " ++ path))
  | none => (v, .error ("File not found: " ++ path))

/-- Lower-case a string character-wise, `s.toLowerCase()`. -/
def lowerStr (s : String) : String := ⟨s.data.map Char.toLower⟩

/-- `VaultService.findFilesByName`: case-insensitive substring match of
the search fragment against each file's basename, returning full paths. -/
def findFilesByName (v : Vault) (frag : String) : List String :=
  (v.files.map (fun e => e.1)).filter
    (fun p => jsIncludes (lowerStr (basename p)) (lowerStr frag))

/-- `VaultService.listFiles`: paths of the files under a directory, in
store order (modelling the vault tree iteration of `collectFiles`),
truncated to `limit`.  The root directory normalizes to the empty path. -/
def listFiles (v : Vault) (directory : String) (recursive : Bool) (limit : Nat) :
    List String :=
  let nd := normalizePath directory
  if nd = "" ∨ v.folders.contains nd then
    ((v.files.map (fun e => e.1)).filter
      (fun p => if recursive then (nd = "" || (nd ++ "/").isPrefixOf p)
                else parentPath p = nd)).take limit
  else []

/-- Move the file at `old` to `new`, modelling
`fileManager.renameFile`: fails when the destination is occupied or its
parent folder does not exist. -/
def renameFile (v : Vault) (old new : String) : Except String Vault :=
  if pathExists v new then .error "Destination file already exists."
  else if parentPath new ≠ "" ∧ ¬ v.folders.contains (parentPath new) then
    .error "Folder does not exist."
  else match v.files.lookup old with
    | none => .error "File not found."
    | some c =>
      .ok { v with files := (new, c) :: v.files.filter (fun e => ¬ e.1 = old) }

/-- Move the folder at `old` (and every path below it) to `new`, the
`fileManager.renameFile` behaviour on folders. -/
def renameFolder (v : Vault) (old new : String) : Except String Vault :=
  if pathExists v new then .error "Destination file already exists."
  else
    .ok { files := v.files.map (fun e =>
            if (old ++ "/").isPrefixOf e.1 then
              (new ++ "/" ++ ⟨e.1.data.drop (old.length + 1)⟩, e.2) else e),
          folders := v.folders.map (fun f =>
            if f = old then new
            else if (old ++ "/").isPrefixOf f then new ++ "/" ++ ⟨f.data.drop (old.length + 1)⟩
            else f) }

/-- Ensure the `Trash` folder exists, the first step of
`VaultService.deleteNote`. -/
def ensureTrash (v : Vault) : Vault :=
  if pathExists v "Trash" then v else { v with folders := "Trash" :: v.folders }

/-- The extension used for trash collision renaming: the part of the file
name after the last dot, `fileName.split('.').pop()`. -/
def trashExt (nm : String) : String := ⟨(splitOnCharL '.' nm.data).getLastD []⟩

/-- The collision stem: the file name with the first occurrence of
`.<ext>` removed, `fileName.replace('.' + ext, '')`. -/
def trashStem (nm : String) : String := jsReplaceFirst nm ("." ++ trashExt nm) ""

/-- The trash destination chosen by `VaultService.deleteNote` for a file
named `nm`: `Trash/<nm>`, or on collision
`Trash/<stem>_<timestamp>.<ext>`. -/
def trashDestName (v : Vault) (nm : String) (ts : Nat) : String :=
  if pathExists v ("Trash/" ++ nm) then
    "Trash/" ++ trashStem nm ++ "_" ++ Nat.repr ts ++ "." ++ trashExt nm
  else "Trash/" ++ nm

/-- `VaultService.deleteNote` with the wall-clock timestamp passed
explicitly: soft delete by moving the entry into `Trash`, resolving a
name collision with a timestamp suffix. -/
def deleteNote (ts : Nat) (v : Vault) (path : String) : Vault × Except String String :=
  let np := normalizePath path
  match getEntry v np with
  | none => (v, .error ("File not found: " ++ path))
  | some entry =>
    let v1 := ensureTrash v
    let newPath := trashDestName v1 (basename np) ts
    let moved := match entry with
      | .file _ => renameFile v1 np newPath
      | .folder => renameFolder v1 np newPath
    match moved with
    | .ok v2 => (v2, .ok ("Successfully moved " ++ path ++ " to " ++ newPath))
    | .error e => (v1, .error e)

/-! ## Association-list lemmas -/

theorem updEntry_self (np c b : String) : updEntry np c (np, b) = (np, c) :=
  if_pos rfl

theorem updEntry_other (np c : String) (e : String × String) (h : ¬ e.1 = np) :
    updEntry np c e = e := if_neg h

theorem lookup_cons_self (a b : String) (rest : List (String × String)) :
    List.lookup a ((a, b) :: rest) = some b := by
  simp [List.lookup]

theorem lookup_cons_ne (q a b : String) (rest : List (String × String)) (h : q ≠ a) :
    List.lookup q ((a, b) :: rest) = List.lookup q rest := by
  simp [List.lookup, beq_eq_false_iff_ne.mpr h]

theorem lookup_map_updEntry (l : List (String × String)) (np c : String) :
    (l.map (updEntry np c)).lookup np = (l.lookup np).map (fun _ => c) := by
  induction l with
  | nil => rfl
  | cons e rest ih =>
    rcases e with ⟨a, b⟩
    by_cases h : a = np
    · subst h
      rw [List.map_cons, updEntry_self, lookup_cons_self, lookup_cons_self]
      rfl
    · rw [List.map_cons, updEntry_other np c (a, b) h,
        lookup_cons_ne np a b _ (fun hc => h hc.symm),
        lookup_cons_ne np a b _ (fun hc => h hc.symm), ih]

theorem lookup_map_updEntry_ne (l : List (String × String)) (np c q : String)
    (h : q ≠ np) : (l.map (updEntry np c)).lookup q = l.lookup q := by
  induction l with
  | nil => rfl
  | cons e rest ih =>
    rcases e with ⟨a, b⟩
    by_cases he : a = np
    · subst he
      rw [List.map_cons, updEntry_self, lookup_cons_ne q a c _ h,
        lookup_cons_ne q a b _ h, ih]
    · by_cases hq : q = a
      · subst hq
        rw [List.map_cons, updEntry_other np c (q, b) he, lookup_cons_self,
          lookup_cons_self]
      · rw [List.map_cons, updEntry_other np c (a, b) he,
          lookup_cons_ne q a b _ hq, lookup_cons_ne q a b _ hq, ih]

theorem updEntry_idem (np c : String) :
    updEntry np c ∘ updEntry np c = updEntry np c := by
  funext e
  rcases e with ⟨a, b⟩
  by_cases h : a = np
  · subst h
    simp only [Function.comp_apply, updEntry_self]
  · simp only [Function.comp_apply, updEntry_other np c (a, b) h]

theorem map_updEntry_of_lookup_none (l : List (String × String)) (np c : String)
    (h : l.lookup np = none) : l.map (updEntry np c) = l := by
  induction l with
  | nil => rfl
  | cons e rest ih =>
    rcases e with ⟨a, b⟩
    by_cases he : np = a
    · subst he
      rw [lookup_cons_self] at h
      exact absurd h (by simp)
    · rw [lookup_cons_ne np a b _ he] at h
      rw [List.map_cons, updEntry_other np c (a, b) (fun hc => he hc.symm), ih h]

theorem lookup_filter_ne (l : List (String × String)) (old q : String)
    (h : q ≠ old) : (l.filter (fun e => ¬ e.1 = old)).lookup q = l.lookup q := by
  induction l with
  | nil => rfl
  | cons e rest ih =>
    rcases e with ⟨a, b⟩
    by_cases he : a = old
    · subst he
      rw [List.filter_cons_of_neg (by simp), lookup_cons_ne q a b _ h, ih]
    · by_cases hq : q = a
      · subst hq
        rw [List.filter_cons_of_pos (by simp [he]), lookup_cons_self,
          lookup_cons_self]
      · rw [List.filter_cons_of_pos (by simp [he]), lookup_cons_ne q a b _ hq,
          lookup_cons_ne q a b _ hq, ih]

/-! ## Vault operation lemmas -/

theorem createFolderIgnore_files (v : Vault) (p : String) :
    (createFolderIgnore v p).files = v.files := by
  unfold createFolderIgnore
  split <;> rfl

theorem createFolderIgnore_idem (v : Vault) (p : String) :
    createFolderIgnore (createFolderIgnore v p) p = createFolderIgnore v p := by
  rcases v with ⟨fs, fo⟩
  unfold createFolderIgnore
  by_cases h : (pathAncestors p).any (fun q => isFile ⟨fs, fo⟩ q)
  · rw [if_pos h, if_pos h]
  · rw [if_neg h, if_neg (by exact h)]
    have hall : ∀ q ∈ pathAncestors p,
        ¬ ((fun r => ¬ (((pathAncestors p).filter (fun r => ¬ fo.contains r)
            ++ fo).contains r : Bool)) q : Bool) := by
      intro q hq
      by_cases hc : fo.contains q
      · simp only [decide_eq_true_eq, not_not]
        exact List.elem_eq_true_of_mem
          (List.mem_append.mpr (Or.inr (List.mem_of_elem_eq_true hc)))
      · simp only [decide_eq_true_eq, not_not]
        refine List.elem_eq_true_of_mem
          (List.mem_append.mpr (Or.inl (List.mem_filter.mpr ⟨hq, ?_⟩)))
        simp only [decide_eq_true_eq]
        exact hc
    have hnil := List.filter_eq_nil_iff.mpr hall
    simp only [Vault.mk.injEq, true_and]
    rw [hnil, List.nil_append]

theorem saveNote_update (v : Vault) (f c c0 : String)
    (hl : v.files.lookup (normalizePath f) = some c0) :
    saveNote v f c = (modifyFile v (normalizePath f) c,
      .ok ("Successfully updated note: " ++ normalizePath f)) := by
  simp only [saveNote, hl]

theorem saveNote_create (v : Vault) (f c : String)
    (hl : v.files.lookup (normalizePath f) = none) :
    saveNote v f c =
      (match createFile
          (if parentPath (normalizePath f) ≠ "" then
            createFolderIgnore v (parentPath (normalizePath f)) else v)
          (normalizePath f) c with
       | .ok v2 => (v2, .ok ("Successfully created note: " ++ normalizePath f))
       | .error e =>
         ((if parentPath (normalizePath f) ≠ "" then
            createFolderIgnore v (parentPath (normalizePath f)) else v), .error e)) := by
  simp only [saveNote, hl]

theorem createFile_ok (v : Vault) (p c : String) (w : Vault)
    (h : createFile v p c = .ok w) :
    w = { v with files := (p, c) :: v.files } := by
  unfold createFile at h
  split_ifs at h
  exact (Except.ok.inj h).symm

/-- C6: calling `saveNote` twice with the same path and content leaves the
document store (files and folders alike) identical to calling it once; the
first call creates or overwrites, the second overwrites the same content
(and when the first call throws, the second throws from the same
intermediate state). -/
theorem saveNote_idem (v : Vault) (filename content : String) :
    (saveNote (saveNote v filename content).1 filename content).1
      = (saveNote v filename content).1 := by
  cases hl : v.files.lookup (normalizePath filename) with
  | some c0 =>
    rw [saveNote_update v filename content c0 hl]
    have h2 : ((modifyFile v (normalizePath filename) content).files).lookup
        (normalizePath filename) = some content := by
      rw [modifyFile_files, lookup_map_updEntry, hl]
      rfl
    rw [saveNote_update _ filename content content h2]
    simp only [modifyFile, modifyFile_files, Vault.mk.injEq, and_true]
    rw [List.map_map, updEntry_idem]
  | none =>
    rw [saveNote_create v filename content hl]
    have hv1files : ((if parentPath (normalizePath filename) ≠ "" then
        createFolderIgnore v (parentPath (normalizePath filename)) else v)).files
        = v.files := by
      split
      · exact createFolderIgnore_files v _
      · rfl
    cases hc : createFile
        (if parentPath (normalizePath filename) ≠ "" then
          createFolderIgnore v (parentPath (normalizePath filename)) else v)
        (normalizePath filename) content with
    | ok w =>
      have hw := createFile_ok _ _ _ _ hc
      simp only [hc]
      have hlw : w.files.lookup (normalizePath filename) = some content := by
        rw [hw]
        exact lookup_cons_self _ _ _
      rw [saveNote_update w filename content content hlw]
      simp only [modifyFile, modifyFile_files, Vault.mk.injEq, and_true]
      rw [hw]
      simp only [List.map_cons, updEntry_self]
      rw [map_updEntry_of_lookup_none _ _ _ (by rw [hv1files]; exact hl)]
    | error e =>
      simp only [hc]
      have hl1 : ((if parentPath (normalizePath filename) ≠ "" then
          createFolderIgnore v (parentPath (normalizePath filename)) else v)).files.lookup
          (normalizePath filename) = none := by rw [hv1files]; exact hl
      rw [saveNote_create _ filename content hl1]
      by_cases hp : parentPath (normalizePath filename) ≠ ""
      · simp only [if_pos hp] at hc ⊢
        rw [createFolderIgnore_idem, hc]
      · simp only [if_neg hp] at hc ⊢
        rw [hc]

/-! ## First-occurrence replacement -/

theorem jsReplaceFirstL_split (s pat rep : List Char)
    (h : jsIncludesL s pat = true) :
    ∃ pre post, s = pre ++ pat ++ post ∧
      jsReplaceFirstL s pat rep = pre ++ rep ++ post := by
  induction s with
  | nil =>
    simp only [jsIncludesL, List.isEmpty_iff] at h
    exact ⟨[], [], by simp [h], by simp [jsReplaceFirstL, h]⟩
  | cons c rest ih =>
    by_cases hp : pat.isPrefixOf (c :: rest)
    · obtain ⟨t, ht⟩ := List.isPrefixOf_iff_prefix.mp hp
      refine ⟨[], (c :: rest).drop pat.length, ?_, ?_⟩
      · rw [List.nil_append, ← ht, List.drop_left]
      · simp [jsReplaceFirstL, hp]
    · simp only [jsIncludesL, hp, Bool.false_or] at h
      obtain ⟨pre, post, h1, h2⟩ := ih h
      exact ⟨c :: pre, post, by simp [h1], by simp [jsReplaceFirstL, hp, h2]⟩

theorem saveNote_ok_lookup (v : Vault) (f c : String) (v1 : Vault) (m : String)
    (h : saveNote v f c = (v1, .ok m)) :
    v1.files.lookup (normalizePath f) = some c := by
  cases hl : v.files.lookup (normalizePath f) with
  | some c0 =>
    rw [saveNote_update v f c c0 hl] at h
    have hv : v1 = modifyFile v (normalizePath f) c := ((Prod.ext_iff.mp h).1).symm
    rw [hv, modifyFile_files, lookup_map_updEntry, hl]
    rfl
  | none =>
    rw [saveNote_create v f c hl] at h
    cases hc : createFile
        (if parentPath (normalizePath f) ≠ "" then
          createFolderIgnore v (parentPath (normalizePath f)) else v)
        (normalizePath f) c with
    | ok w =>
      simp only [hc] at h
      have hv : v1 = w := ((Prod.ext_iff.mp h).1).symm
      rw [hv, createFile_ok _ _ _ _ hc]
      exact lookup_cons_self _ _ _
    | error e =>
      simp only [hc] at h
      exact absurd (Prod.ext_iff.mp h).2 (by simp)

/-- C5 counterexample: the spec's replace round-trip fails when the target
occurs more than once.  Saving `x.md` with content `abab` and replacing
`ab` by `c` yields content `cab`, which still contains the target `ab`
(only the first occurrence is replaced). -/
theorem replace_round_trip_cex :
    (replaceInNote (saveNote ⟨[], []⟩ "x.md" "abab").1 "x.md" "ab" "c").1.files.lookup "x.md"
      = some "cab"
    ∧ jsIncludes "cab" "ab" = true := ⟨rfl, rfl⟩

/-- C5 amended: after `saveNote(path, content)` where `content` contains
`target`, `replaceInNote(path, target, replacement)` succeeds and replaces
exactly the FIRST occurrence of the target: the stored content becomes
`pre ++ replacement ++ post` where `content = pre ++ target ++ post` is
the split at the first occurrence.  The original claim's conclusions (no
target remains, replacement appears exactly once) hold only when this
single-occurrence substitution happens to satisfy them. -/
theorem save_then_replace_first (v : Vault) (path content target repl : String)
    (v1 : Vault) (m1 : String)
    (hinc : jsIncludes content target = true)
    (hsave : saveNote v path content = (v1, .ok m1)) :
    ∃ pre post,
      content.data = pre ++ target.data ++ post ∧
      replaceInNote v1 path target repl
        = (modifyFile v1 (normalizePath path) ⟨pre ++ repl.data ++ post⟩,
           .ok ("Successfully replaced content in " ++ path)) ∧
      (replaceInNote v1 path target repl).1.files.lookup (normalizePath path)
        = some ⟨pre ++ repl.data ++ post⟩ := by
  have hl := saveNote_ok_lookup v path content v1 m1 hsave
  obtain ⟨pre, post, h1, h2⟩ := jsReplaceFirstL_split content.data target.data repl.data hinc
  have hrep : jsReplaceFirst content target repl = ⟨pre ++ repl.data ++ post⟩ := by
    simp only [jsReplaceFirst, h2]
  have hmain : replaceInNote v1 path target repl
      = (modifyFile v1 (normalizePath path) ⟨pre ++ repl.data ++ post⟩,
         .ok ("Successfully replaced content in " ++ path)) := by
    simp only [replaceInNote, hl, hinc, if_true, hrep]
  refine ⟨pre, post, h1, hmain, ?_⟩
  rw [hmain]
  simp only [modifyFile_files, lookup_map_updEntry, hl]
  rfl

/-- C5 witness: a concrete instantiation of the amended round-trip. -/
theorem save_then_replace_first_witness :
    jsIncludes "hello old world" "old" = true
    ∧ (replaceInNote (⟨[("n.md", "hello old world")], []⟩ : Vault) "n.md" "old" "new").2
        = .ok ("Successfully replaced content in " ++ "n.md") := by
  refine ⟨rfl, ?_⟩
  obtain ⟨pre, post, h1, h2, h3⟩ :=
    save_then_replace_first ⟨[], []⟩ "n.md" "hello old world" "old" "new"
      ⟨[("n.md", "hello old world")], []⟩ "Successfully created note: n.md" rfl rfl
  rw [h2]

/-! ## Character-level path lemmas for the trash destination -/

theorem splitOnCharL_cons_eq (sep c : Char) (rest h : List Char)
    (t : List (List Char)) (hs : splitOnCharL sep rest = h :: t) :
    splitOnCharL sep (c :: rest)
      = if c = sep then [] :: h :: t else (c :: h) :: t := by
  unfold splitOnCharL
  rw [hs]

theorem splitOnCharL_ne_nil (sep : Char) (l : List Char) :
    splitOnCharL sep l ≠ [] := by
  induction l with
  | nil => simp [splitOnCharL]
  | cons c rest ih =>
    obtain ⟨h, t, hs⟩ := List.exists_cons_of_ne_nil ih
    rw [splitOnCharL_cons_eq sep c rest h t hs]
    split <;> simp

theorem splitOnCharL_no_sep (sep : Char) (l : List Char) :
    ∀ comp ∈ splitOnCharL sep l, sep ∉ comp := by
  induction l with
  | nil => intro comp hc; simp [splitOnCharL] at hc; simp [hc]
  | cons c rest ih =>
    intro comp hc
    obtain ⟨h, t, hs⟩ := List.exists_cons_of_ne_nil (splitOnCharL_ne_nil sep rest)
    rw [splitOnCharL_cons_eq sep c rest h t hs] at hc
    by_cases hcs : c = sep
    · rw [if_pos hcs, List.mem_cons] at hc
      rcases hc with hc | hc
      · simp [hc]
      · exact ih comp (hs ▸ hc)
    · rw [if_neg hcs, List.mem_cons] at hc
      rcases hc with hc | hc
      · subst hc
        intro hmem
        rw [List.mem_cons] at hmem
        rcases hmem with hmem | hmem
        · exact hcs hmem.symm
        · exact ih h (hs ▸ List.mem_cons_self h t) hmem
      · exact ih comp (hs ▸ List.mem_cons.mpr (Or.inr hc))

theorem splitOnCharL_sub (sep : Char) (l : List Char) :
    ∀ comp ∈ splitOnCharL sep l, ∀ c ∈ comp, c ∈ l := by
  induction l with
  | nil => intro comp hc; simp [splitOnCharL] at hc; simp [hc]
  | cons a rest ih =>
    intro comp hc
    obtain ⟨h, t, hs⟩ := List.exists_cons_of_ne_nil (splitOnCharL_ne_nil sep rest)
    rw [splitOnCharL_cons_eq sep a rest h t hs] at hc
    by_cases hcs : a = sep
    · rw [if_pos hcs, List.mem_cons] at hc
      rcases hc with hc | hc
      · simp [hc]
      · exact fun c hcc => List.mem_cons.mpr (Or.inr (ih comp (hs ▸ hc) c hcc))
    · rw [if_neg hcs, List.mem_cons] at hc
      rcases hc with hc | hc
      · subst hc
        intro c hcc
        rw [List.mem_cons] at hcc
        rcases hcc with hcc | hcc
        · exact List.mem_cons.mpr (Or.inl hcc)
        · exact List.mem_cons.mpr
            (Or.inr (ih h (hs ▸ List.mem_cons_self h t) c hcc))
      · exact fun c hcc =>
          List.mem_cons.mpr (Or.inr (ih comp (hs ▸ List.mem_cons.mpr (Or.inr hc)) c hcc))

theorem getLastD_mem_of_ne_nil {α : Type} (l : List α) (d : α) (h : l ≠ []) :
    l.getLastD d ∈ l := by
  cases l with
  | nil => exact absurd rfl h
  | cons a rest =>
    rw [List.getLastD_eq_getLast?]
    rw [List.getLast?_eq_getLast (a :: rest) (by simp)]
    simp only [Option.getD_some]
    exact List.getLast_mem _

theorem basename_no_slash (p : String) : '/' ∉ (basename p).data := by
  unfold basename
  exact splitOnCharL_no_sep '/' p.data _
    (getLastD_mem_of_ne_nil _ _ (splitOnCharL_ne_nil '/' p.data))

theorem jsReplaceFirstL_empty_sub (s pat : List Char) :
    ∀ c ∈ jsReplaceFirstL s pat [], c ∈ s := by
  induction s with
  | nil => intro c hc; unfold jsReplaceFirstL at hc; split at hc <;> simp at hc
  | cons a rest ih =>
    intro c hc
    unfold jsReplaceFirstL at hc
    split at hc
    · rw [List.nil_append] at hc
      exact List.mem_of_mem_drop hc
    · rw [List.mem_cons] at hc
      rcases hc with hc | hc
      · exact List.mem_cons.mpr (Or.inl hc)
      · exact List.mem_cons.mpr (Or.inr (ih c hc))

theorem digitChar_ne_slash (m : Nat) : Nat.digitChar m ≠ '/' := by
  by_cases h : m < 16
  · exact (by decide : ∀ k, k < 16 → Nat.digitChar k ≠ '/') m h
  · have hstar : Nat.digitChar m = '*' := by
      unfold Nat.digitChar
      repeat rw [if_neg (by omega)]
    rw [hstar]
    decide

theorem toDigitsCore_no_slash (fuel n : Nat) (ds : List Char)
    (h : '/' ∉ ds) : '/' ∉ Nat.toDigitsCore 10 fuel n ds := by
  induction fuel generalizing n ds with
  | zero => simpa [Nat.toDigitsCore] using h
  | succ fuel ih =>
    unfold Nat.toDigitsCore
    dsimp only
    split
    · intro hc
      rw [List.mem_cons] at hc
      rcases hc with hc | hc
      · exact digitChar_ne_slash _ hc.symm
      · exact h hc
    · exact ih _ _ (by
        intro hc
        rw [List.mem_cons] at hc
        rcases hc with hc | hc
        · exact digitChar_ne_slash _ hc.symm
        · exact h hc)

theorem natRepr_no_slash (n : Nat) : '/' ∉ (Nat.repr n).data := by
  have : (Nat.repr n).data = Nat.toDigitsCore 10 (n + 1) n [] := rfl
  rw [this]
  exact toDigitsCore_no_slash (n + 1) n [] (by simp)

theorem splitOnCharL_of_no_sep (sep : Char) (l : List Char) (h : sep ∉ l) :
    splitOnCharL sep l = [l] := by
  induction l with
  | nil => rfl
  | cons c rest ih =>
    have hc : c ≠ sep := fun hc => h (hc ▸ List.mem_cons_self c rest)
    have hrest : sep ∉ rest := fun hm => h (List.mem_cons.mpr (Or.inr hm))
    rw [splitOnCharL_cons_eq sep c rest rest [] (ih hrest), if_neg hc]

theorem splitOnCharL_append_sep (sep : Char) (pre x : List Char) (h : sep ∉ pre) :
    splitOnCharL sep (pre ++ sep :: x) = pre :: splitOnCharL sep x := by
  induction pre with
  | nil =>
    obtain ⟨hh, tt, hs⟩ := List.exists_cons_of_ne_nil (splitOnCharL_ne_nil sep x)
    rw [List.nil_append, splitOnCharL_cons_eq sep sep x hh tt hs, if_pos rfl, hs]
  | cons c pre ih =>
    have hc : c ≠ sep := fun hc => h (hc ▸ List.mem_cons_self c pre)
    have hpre : sep ∉ pre := fun hm => h (List.mem_cons.mpr (Or.inr hm))
    rw [List.cons_append,
      splitOnCharL_cons_eq sep c (pre ++ sep :: x) pre (splitOnCharL sep x) (ih hpre),
      if_neg hc]

theorem parentPath_of_trash (s : String) (x : List Char)
    (hs : s.data = "Trash/".data ++ x) (hx : '/' ∉ x) :
    parentPath s = "Trash" := by
  unfold parentPath
  rw [hs]
  have h1 : "Trash/".data ++ x = "Trash".data ++ '/' :: x := rfl
  rw [h1, splitOnCharL_append_sep '/' "Trash".data x (by decide),
    splitOnCharL_of_no_sep '/' x hx]
  rfl

theorem trashExt_no_slash (nm : String) (h : '/' ∉ nm.data) :
    '/' ∉ (trashExt nm).data := by
  unfold trashExt
  intro hc
  exact h (splitOnCharL_sub '.' nm.data _
    (getLastD_mem_of_ne_nil _ _ (splitOnCharL_ne_nil '.' nm.data)) '/' hc)

theorem trashStem_no_slash (nm : String) (h : '/' ∉ nm.data) :
    '/' ∉ (trashStem nm).data := by
  unfold trashStem
  intro hc
  exact h (jsReplaceFirstL_empty_sub nm.data _ '/' hc)

theorem trashDestName_data (v : Vault) (nm : String) (ts : Nat)
    (h : '/' ∉ nm.data) :
    ∃ x, (trashDestName v nm ts).data = "Trash/".data ++ x ∧ '/' ∉ x := by
  unfold trashDestName
  split
  · refine ⟨(trashStem nm).data ++ '_' :: (Nat.repr ts).data ++ '.' :: (trashExt nm).data,
      ?_, ?_⟩
    · show "Trash/".data ++ (trashStem nm).data ++ "_".data ++ (Nat.repr ts).data
        ++ ".".data ++ (trashExt nm).data = _
      simp [List.append_assoc]
    · intro hc
      rw [List.mem_append] at hc
      rcases hc with hc | hc
      · rw [List.mem_append] at hc
        rcases hc with hc | hc
        · exact trashStem_no_slash nm h hc
        · rw [List.mem_cons] at hc
          rcases hc with hc | hc
          · exact absurd hc (by decide)
          · exact natRepr_no_slash ts hc
      · rw [List.mem_cons] at hc
        rcases hc with hc | hc
        · exact absurd hc (by decide)
        · exact trashExt_no_slash nm h hc
  · exact ⟨nm.data, rfl, h⟩

theorem renameFile_ok_eq (v : Vault) (old dest c : String)
    (hold : v.files.lookup old = some c)
    (hfree : pathExists v dest = false)
    (hparent : v.folders.contains (parentPath dest) = true) :
    renameFile v old dest
      = .ok { v with files := (dest, c) :: v.files.filter (fun e => ¬ e.1 = old) } := by
  unfold renameFile
  rw [if_neg (by rw [hfree]; exact Bool.false_ne_true),
    if_neg (by intro hand; exact hand.2 hparent), hold]

/-- C3 counterexample: `deleteNote` is not always able to move the
document into the trash.  With `a.md` present, `Trash/a.md` occupied, and
the timestamped fallback `Trash/a_5.md` also occupied (three same-named
files deleted within one millisecond), the rename throws and the document
stays at its original path, not at any `Trash/`-prefixed path. -/
theorem delete_note_cex :
    deleteNote 5 ⟨[("a.md", "x"), ("Trash/a.md", "y"), ("Trash/a_5.md", "z")], ["Trash"]⟩ "a.md"
      = (⟨[("a.md", "x"), ("Trash/a.md", "y"), ("Trash/a_5.md", "z")], ["Trash"]⟩,
         .error "Destination file already exists.")
    ∧ (deleteNote 5 ⟨[("a.md", "x"), ("Trash/a.md", "y"), ("Trash/a_5.md", "z")], ["Trash"]⟩
        "a.md").1.files.lookup "a.md" = some "x" := ⟨rfl, rfl⟩

/-- C3 amended: for every path resolving to an existing document, provided
`Trash` is not itself a file and the collision-resolved destination
(`Trash/<name>`, or `Trash/<stem>_<timestamp>.<ext>` when occupied) is
free, `deleteNote` moves the document to that `Trash/`-prefixed path with
unchanged content and leaves every other document's content intact — in
particular an occupant of the trash destination is never overwritten.
When even the timestamped destination is occupied the call instead throws
and the vault keeps the document at its original path (no content is ever
lost). -/
theorem deleteNote_moves_to_trash (ts : Nat) (v : Vault) (path c : String)
    (hfile : v.files.lookup (normalizePath path) = some c)
    (hTrashNotFile : v.files.lookup "Trash" = none)
    (hfree : pathExists (ensureTrash v)
        (trashDestName (ensureTrash v) (basename (normalizePath path)) ts) = false) :
    ∃ x : List Char,
      (trashDestName (ensureTrash v) (basename (normalizePath path)) ts).data
        = "Trash/".data ++ x ∧
      deleteNote ts v path
        = ({ ensureTrash v with
             files := (trashDestName (ensureTrash v) (basename (normalizePath path)) ts, c)
               :: (ensureTrash v).files.filter (fun e => ¬ e.1 = normalizePath path) },
           .ok ("Successfully moved " ++ path ++ " to "
              ++ trashDestName (ensureTrash v) (basename (normalizePath path)) ts)) ∧
      (deleteNote ts v path).1.files.lookup
          (trashDestName (ensureTrash v) (basename (normalizePath path)) ts) = some c ∧
      (∀ q c', q ≠ normalizePath path → v.files.lookup q = some c' →
        (deleteNote ts v path).1.files.lookup q = some c') := by
  have hnm : '/' ∉ (basename (normalizePath path)).data := basename_no_slash _
  obtain ⟨x, hx, hxs⟩ := trashDestName_data (ensureTrash v) _ ts hnm
  have hv1f : (ensureTrash v).files = v.files := by
    unfold ensureTrash; split <;> rfl
  have hlook1 : (ensureTrash v).files.lookup (normalizePath path) = some c := by
    rw [hv1f]; exact hfile
  have hTrashFolder : (ensureTrash v).folders.contains "Trash" = true := by
    unfold ensureTrash
    by_cases hp : pathExists v "Trash" = true
    · rw [if_pos hp]
      simpa [pathExists, hTrashNotFile] using hp
    · rw [if_neg hp]
      simp
  have hparent : parentPath
      (trashDestName (ensureTrash v) (basename (normalizePath path)) ts) = "Trash" :=
    parentPath_of_trash _ x hx hxs
  have hpcont : (ensureTrash v).folders.contains (parentPath
      (trashDestName (ensureTrash v) (basename (normalizePath path)) ts)) = true := by
    rw [hparent]; exact hTrashFolder
  have hrename := renameFile_ok_eq (ensureTrash v) (normalizePath path)
    (trashDestName (ensureTrash v) (basename (normalizePath path)) ts) c
    hlook1 hfree hpcont
  have hentry : getEntry v (normalizePath path) = some (.file c) := by
    unfold getEntry; rw [hfile]
  have hdel : deleteNote ts v path
      = ({ ensureTrash v with
           files := (trashDestName (ensureTrash v) (basename (normalizePath path)) ts, c)
             :: (ensureTrash v).files.filter (fun e => ¬ e.1 = normalizePath path) },
         .ok ("Successfully moved " ++ path ++ " to "
            ++ trashDestName (ensureTrash v) (basename (normalizePath path)) ts)) := by
    simp only [deleteNote, hentry, hrename]
  refine ⟨x, hx, hdel, ?_, ?_⟩
  · rw [hdel]
    exact lookup_cons_self _ _ _
  · intro q c' hq hq2
    have hqd : q ≠ trashDestName (ensureTrash v) (basename (normalizePath path)) ts := by
      intro he
      apply absurd hfree
      simp only [pathExists, hv1f, ← he, hq2, Option.isSome_some, Bool.true_or]
      simp
    rw [hdel]
    show List.lookup q ((trashDestName (ensureTrash v) (basename (normalizePath path)) ts, c)
      :: (ensureTrash v).files.filter (fun e => ¬ e.1 = normalizePath path)) = some c'
    rw [lookup_cons_ne q _ c _ hqd, lookup_filter_ne _ _ _ hq, hv1f]
    exact hq2

/-- C3 witness: a concrete successful soft delete preserving content. -/
theorem deleteNote_moves_to_trash_witness :
    (deleteNote 5 ⟨[("a.md", "x")], []⟩ "a.md").1.files.lookup "Trash/a.md" = some "x" := by
  obtain ⟨x, hx, hdel, hlook, hpres⟩ :=
    deleteNote_moves_to_trash 5 ⟨[("a.md", "x")], []⟩ "a.md" "x" rfl rfl rfl
  exact hlook

/-! ## The chat orchestration layer

`GeminiService.chat` (src/src/services/gemini.ts, the version implementing
`LLMProvider`).  The provider network is abstracted as an oracle giving
each `sendMessage`'s outcome: a parsed response, or the message of a
rejected promise.  The wall-clock timestamp used by `delete_note` is an
explicit parameter. -/

inductive Role where
  | user
  | model
deriving DecidableEq, Repr

structure Turn where
  role : Role
  text : String
deriving DecidableEq, Repr

/-- JS truthiness of the `context : string | null` parameter: non-null and
non-empty. -/
def ctxTruthy : Option String → Bool
  | some c => c ≠ ""
  | none => false

/-- The history actually handed to `model.startChat`: when context is
truthy, the history is non-empty, and its first turn is a user turn, that
first stored turn's text is rewritten to carry the context. -/
def buildChatHistory (ctx : Option String) (history : List Turn) : List Turn :=
  match history with
  | [] => []
  | first :: rest =>
    if ctxTruthy ctx = true ∧ first.role = Role.user then
      { first with text := "Context:\n" ++ ctx.getD "" ++ "\n\nUser Request: "
          ++ first.text } :: rest
    else first :: rest

/-- The outgoing prompt text (`finalPrompt`): the context is prepended
only when the history is empty. -/
def buildFinalPrompt (ctx : Option String) (history : List Turn) (prompt : String) :
    String :=
  if ctxTruthy ctx = true ∧ history = [] then
    "Context:\n" ++ ctx.getD "" ++ "\n\nUser Request: " ++ prompt
  else prompt

/-- Arguments of a tool call as produced by the provider; absent fields
are JS `undefined`.  (For the three `list_files` parameters the dispatcher
relies on the TypeScript default parameters; for the others a missing
required field would make the vault call throw a TypeError that the
dispatcher's catch turns into an error string, modelled here by looking up
the empty path, which produces the same caught error-string shape.) -/
structure ToolArgs where
  directory : Option String := none
  recursive : Option Bool := none
  limit : Option Nat := none
  filename : Option String := none
  content : Option String := none
  path : Option String := none
  key : Option String := none
  value : Option String := none
  name : Option String := none
  target : Option String := none
  replacement : Option String := none
deriving DecidableEq, Repr

structure FunctionCall where
  name : String
  args : ToolArgs
deriving DecidableEq, Repr

/-- A tool result fed back to the provider: the vault operations return
strings except `list_files`, which feeds back the path array itself. -/
inductive ToolResult where
  | str (s : String)
  | strList (l : List String)
deriving DecidableEq, Repr

/-- One element of the `functionResponses` batch. -/
structure FunctionResponsePart where
  name : String
  response : ToolResult
deriving DecidableEq, Repr

/-- The body of the per-call `try` block: dispatch on the tool name to the
`VaultService` operation (the order of the `if/else` chain follows the
source), with `Unknown tool: <name>` as an ordinary (non-thrown) result. -/
def execTool (ts : Nat) (v : Vault) (call : FunctionCall) :
    Vault × Except String ToolResult :=
  if call.name = "list_files" then
    (v, .ok (.strList (listFiles v (call.args.directory.getD "/")
      (call.args.recursive.getD false) (call.args.limit.getD 100))))
  else if call.name = "read_note" then
    let r := readFile v (call.args.filename.getD "")
    (r.1, r.2.map .str)
  else if call.name = "save_note" then
    let r := saveNote v (call.args.filename.getD "") (call.args.content.getD "")
    (r.1, r.2.map .str)
  else if call.name = "update_frontmatter" then
    let r := updateFrontmatter v (call.args.path.getD "") (call.args.key.getD "")
      (call.args.value.getD "")
    (r.1, r.2.map .str)
  else if call.name = "find_files_by_name" then
    let files := findFilesByName v (call.args.name.getD "")
    (v, .ok (.str (if files.isEmpty then "No files found."
      else String.intercalate "\n" files)))
  else if call.name = "replace_in_note" then
    let r := replaceInNote v (call.args.path.getD "") (call.args.target.getD "")
      (call.args.replacement.getD "")
    (r.1, r.2.map .str)
  else if call.name = "delete_note" then
    let r := deleteNote ts v (call.args.path.getD "")
    (r.1, r.2.map .str)
  else (v, .ok (.str ("Unknown tool: " ++ call.name)))

/-- The per-call `try`/`catch`: a thrown vault error becomes the result
string `Error: <message>`; dispatch never propagates an exception. -/
def dispatchTool (ts : Nat) (v : Vault) (call : FunctionCall) : Vault × ToolResult :=
  match execTool ts v call with
  | (v', .ok r) => (v', r)
  | (v', .error e) => (v', .str ("Error: " ++ e))

/-- The `for (const call of functionCalls)` loop: dispatch sequentially,
pushing one `functionResponse` per call, paired by name, in order. -/
def processCalls (ts : Nat) (v : Vault) :
    List FunctionCall → Vault × List FunctionResponsePart
  | [] => (v, [])
  | call :: rest =>
    let pr := dispatchTool ts v call
    let rec' := processCalls ts pr.1 rest
    (rec'.1, ⟨call.name, pr.2⟩ :: rec'.2)

/-- A typed part of a provider response, with the optional fields the
extraction loop reads (in its guard order). -/
structure RPart where
  thought : Option String := none
  text : Option String := none
  inlineData : Option (String × String) := none
  executableCode : Option (String × String) := none
  codeExecutionResult : Option String := none
deriving DecidableEq, Repr

structure Candidate where
  content : Option (List RPart)
  finishReason : Option String
deriving DecidableEq, Repr

structure GeminiResponse where
  candidates : List Candidate
  functionCalls : List FunctionCall
deriving DecidableEq, Repr

/-- JS truthiness of an optional string field. -/
def strTruthy : Option String → Bool
  | some s => s ≠ ""
  | none => false

/-- One step of the extraction loop: accumulate (thoughts, finalOutput)
following the source's `if`/`else if` chain over the part's fields. -/
def partStep (acc : String × String) (p : RPart) : String × String :=
  if strTruthy p.thought then (acc.1 ++ p.thought.getD "" ++ "\n", acc.2)
  else if strTruthy p.text then (acc.1, acc.2 ++ p.text.getD "")
  else match p.inlineData with
  | some md => (acc.1, acc.2 ++ "\n![Generated Image](data:" ++ md.1
      ++ ";base64," ++ md.2 ++ ")\n")
  | none => match p.executableCode with
    | some lc => (acc.1, acc.2 ++ "\n```" ++ lc.1 ++ "\n" ++ lc.2 ++ "\n```\n")
    | none => match p.codeExecutionResult with
      | some o => (acc.1, acc.2 ++ "\nOutput:\n```\n" ++ o ++ "\n```\n")
      | none => acc

/-- The `catch` branch of final-output processing: map the first
candidate's finish reason to a fixed message, else the generic one. -/
def finishFallback (resp : GeminiResponse) : String :=
  match resp.candidates.head? with
  | none =>
    "Error: No response received from the model. It might be blocked or encountered an error."
  | some cand =>
    match cand.finishReason with
    | some r =>
      if r = "SAFETY" then
        "Response blocked by safety filters. Please try a different prompt."
      else if r = "RECITATION" then "Response blocked due to recitation check."
      else if r = "OTHER" then
        "Response blocked for unknown reasons (finishReason: OTHER)."
      else
        "Error: No response received from the model. It might be blocked or encountered an error."
    | none =>
      "Error: No response received from the model. It might be blocked or encountered an error."

/-- The collapsible thoughts block prepended when thought parts were
produced. -/
def thoughtsWrap (thoughts body : String) : String :=
  "<details class=\"gemini-thoughts\">\n<summary>Thinking Process</summary>\n\n"
  ++ thoughts ++ "\n\n</details>\n\n" ++ body

/-- The note appended when Deep Think was requested but no thought parts
came back. -/
def deepThinkNote : String :=
  "\n\n<div style=\"font-size: 0.8em; color: var(--text-muted); font-style: italic;\">(Note: The \"Thinking Process\" is not supported by this model. Try 'Gemini 2.0 Flash Thinking' if available.)</div>"

/-- Final-output extraction of `GeminiService.chat`: concatenate the typed
parts of the first candidate; prepend the thoughts block or append the
Deep Think note; on a missing candidate/content/parts or an empty result,
fall through to the finish-reason mapping. -/
def extractFinalOutput (resp : GeminiResponse) (deepThink : Bool) : String :=
  match resp.candidates.head? with
  | none => finishFallback resp
  | some cand =>
    match cand.content with
    | none => finishFallback resp
    | some parts =>
      let acc := parts.foldl partStep ("", "")
      let out :=
        if acc.1 ≠ "" then thoughtsWrap acc.1 acc.2
        else if deepThink then acc.2 ++ deepThinkNote
        else acc.2
      if out = "" then finishFallback resp else out

/-- The tool-resolution `while` loop of `GeminiService.chat`; `fuel` is
`MAX_TURNS - turns` (so starts at 5), `sends` counts provider round-trips
made so far, the oracle gives the response to the `sends`-th
`sendMessage`.  Returns the final vault, the last response, the total
round-trip count, and the `functionResponses` batches sent. -/
def toolLoop (oracle : Nat → Except String GeminiResponse) (ts : Nat) :
    Nat → Nat → Vault → GeminiResponse →
    Except String (Vault × GeminiResponse × Nat × List (List FunctionResponsePart))
  | 0, sends, v, resp => .ok (v, resp, sends, [])
  | fuel + 1, sends, v, resp =>
    if resp.functionCalls.isEmpty then .ok (v, resp, sends, [])
    else
      let pr := processCalls ts v resp.functionCalls
      match oracle sends with
      | .error e => .error e
      | .ok resp' =>
        match toolLoop oracle ts fuel (sends + 1) pr.1 resp' with
        | .error e => .error e
        | .ok out => .ok (out.1, out.2.1, out.2.2.1, pr.2 :: out.2.2.2)

structure ChatOutcome where
  vault : Vault
  text : String
  roundTrips : Nat
  batches : List (List FunctionResponsePart)
  finalResponse : GeminiResponse
  sentHistory : List Turn
  sentFirstMessage : String
deriving Repr

/-- `GeminiService.chat`: build the outgoing history and prompt, do the
initial send, run the tool-resolution loop with `MAX_TURNS = 5`, then
extract the final output from whatever the last response contained.  A
rejected send propagates (there is no `try` around `sendMessage` in the
source), modelled by the `.error` result. -/
def geminiChat (oracle : Nat → Except String GeminiResponse) (v : Vault) (ts : Nat)
    (prompt : String) (history : List Turn) (context : Option String)
    (deepThink : Bool) : Except String ChatOutcome :=
  match oracle 0 with
  | .error e => .error e
  | .ok r0 =>
    match toolLoop oracle ts 5 1 v r0 with
    | .error e => .error e
    | .ok out =>
      .ok { vault := out.1
            text := extractFinalOutput out.2.1 deepThink
            roundTrips := out.2.2.1
            batches := out.2.2.2
            finalResponse := out.2.1
            sentHistory := buildChatHistory context history
            sentFirstMessage := buildFinalPrompt context history prompt }

/-! ### The Anthropic and ChatGPT adapters (error boundary) -/

/-- A content block of an Anthropic response. -/
structure AnthropicBlock where
  btype : String
  text : String
deriving DecidableEq, Repr

/-- `AnthropicService.chat` response handling: first `text` block, else a
fixed error string. -/
def anthropicExtract (blocks : List AnthropicBlock) : String :=
  match blocks.find? (fun b => b.btype = "text") with
  | some b => b.text
  | none => "Error: No text response from Claude."

/-- `AnthropicService.chat` around the `messages.create` boundary: the
whole send/extract is inside `try`, and the `catch` returns
`Error: <message>`. -/
def anthropicChat (send : Except String (List AnthropicBlock)) : String :=
  match send with
  | .ok blocks => anthropicExtract blocks
  | .error msg => "Error: " ++ msg

/-- A choice of a ChatGPT response (`choices[i].message.content`). -/
structure ChatGPTChoice where
  content : Option String
deriving DecidableEq, Repr

/-- `ChatGPTService.chat` response handling: first choice's truthy message
content, else a fixed error string. -/
def chatgptExtract (choices : List ChatGPTChoice) : String :=
  match choices.head? with
  | some ch =>
    match ch.content with
    | some c => if c = "" then "Error: No text response from ChatGPT." else c
    | none => "Error: No text response from ChatGPT."
  | none => "Error: No text response from ChatGPT."

/-- `ChatGPTService.chat` around the `completions.create` boundary. -/
def chatgptChat (send : Except String (List ChatGPTChoice)) : String :=
  match send with
  | .ok choices => chatgptExtract choices
  | .error msg => "Error: " ++ msg

/-! ## Claim theorems about the orchestration loop -/

theorem toolLoop_sends_le (oracle : Nat → Except String GeminiResponse) (ts : Nat) :
    ∀ (fuel sends : Nat) (v : Vault) (resp : GeminiResponse)
      (out : Vault × GeminiResponse × Nat × List (List FunctionResponsePart)),
      toolLoop oracle ts fuel sends v resp = .ok out → out.2.2.1 ≤ sends + fuel := by
  intro fuel
  induction fuel with
  | zero =>
    intro sends v resp out h
    unfold toolLoop at h
    cases h
    simp
  | succ fuel ih =>
    intro sends v resp out h
    unfold toolLoop at h
    split at h
    · cases h
      simp
    · cases h0 : oracle sends with
      | error e => rw [h0] at h; dsimp only at h; cases h
      | ok resp' =>
        rw [h0] at h
        dsimp only at h
        cases hrec : toolLoop oracle ts fuel (sends + 1) (processCalls ts v resp.functionCalls).1 resp' with
        | error e => rw [hrec] at h; cases h
        | ok out' =>
          rw [hrec] at h
          cases h
          have := ih (sends + 1) _ resp' out' hrec
          simp only
          omega

/-- C1: every `chat()` invocation makes at most 6 provider round-trips
(one initial send plus at most 5 tool-resolution rounds): whenever the
modelled `chat` resolves, its round-trip count is at most 6, and the
returned text is the final-output extraction of whatever the last
response contained — even when that response still requests tool calls. -/
theorem chat_round_trips_le_six (oracle : Nat → Except String GeminiResponse)
    (v : Vault) (ts : Nat) (prompt : String) (history : List Turn)
    (context : Option String) (deepThink : Bool) (out : ChatOutcome)
    (h : geminiChat oracle v ts prompt history context deepThink = .ok out) :
    out.roundTrips ≤ 6
    ∧ out.text = extractFinalOutput out.finalResponse deepThink := by
  unfold geminiChat at h
  cases h0 : oracle 0 with
  | error e => rw [h0] at h; dsimp only at h; cases h
  | ok r0 =>
    rw [h0] at h
    dsimp only at h
    cases hl : toolLoop oracle ts 5 1 v r0 with
    | error e => rw [hl] at h; dsimp only at h; cases h
    | ok lout =>
      rw [hl] at h
      dsimp only at h
      cases h
      exact ⟨toolLoop_sends_le oracle ts 5 1 v r0 lout hl, rfl⟩

/-- Round-trip count of a chat outcome (7 > 6 as the never-taken error
default, so the bound is meaningful only through the theorem). -/
def roundTripsOf (r : Except String ChatOutcome) : Nat :=
  match r with
  | .ok o => o.roundTrips
  | .error _ => 7

/-- C1 witness: an oracle that always requests one more tool call drives
the loop to the cap, and the bound holds (here the count is exactly 6). -/
theorem chat_round_trips_le_six_witness :
    roundTripsOf (geminiChat
      (fun _ => Except.ok (⟨[⟨some [], none⟩], [⟨"foo", {}⟩]⟩ : GeminiResponse))
      ⟨[], []⟩ 0 "p" [] none false) ≤ 6 := by
  have hex : ∃ out, geminiChat
      (fun _ => Except.ok (⟨[⟨some [], none⟩], [⟨"foo", {}⟩]⟩ : GeminiResponse))
      ⟨[], []⟩ 0 "p" [] none false = .ok out := ⟨_, rfl⟩
  obtain ⟨out, hout⟩ := hex
  have hb := (chat_round_trips_le_six _ _ _ _ _ _ _ _ hout).1
  rw [hout]
  exact hb

/-- C2: within one round, the orchestrator produces exactly one function
response per requested call, in the order the provider emitted them, each
paired by name with its originating call — for every batch, regardless of
whether each dispatch succeeded, threw, or named an unknown tool.  (The
loop sends exactly this list back before the next round-trip.) -/
theorem processCalls_one_result_per_call (ts : Nat) (v : Vault)
    (calls : List FunctionCall) :
    ((processCalls ts v calls).2).map (fun r => r.name)
      = calls.map (fun c => c.name)
    ∧ ((processCalls ts v calls).2).length = calls.length := by
  suffices hmap : ∀ (w : Vault),
      ((processCalls ts w calls).2).map (fun r => r.name) = calls.map (fun c => c.name) by
    refine ⟨hmap v, ?_⟩
    have := congrArg List.length (hmap v)
    simpa using this
  induction calls with
  | nil => intro w; rfl
  | cons call rest ih =>
    intro w
    unfold processCalls
    simp only [List.map_cons, List.cons.injEq, true_and]
    exact ih _

theorem processCalls_cons (ts : Nat) (v : Vault) (call : FunctionCall)
    (rest : List FunctionCall) :
    processCalls ts v (call :: rest)
      = ((processCalls ts (dispatchTool ts v call).1 rest).1,
         ⟨call.name, (dispatchTool ts v call).2⟩
           :: (processCalls ts (dispatchTool ts v call).1 rest).2) := rfl

/-- C7: a tool dispatch whose vault operation throws is caught per call:
the result fed back for that call is the string `Error: <message>`, the
failure never escapes `chat()` (dispatch is a total function into results),
and the loop continues with the remaining calls of the batch from the
state the failed operation left behind. -/
theorem tool_error_caught (ts : Nat) (v v' : Vault) (call : FunctionCall)
    (msg : String) (h : execTool ts v call = (v', .error msg)) :
    dispatchTool ts v call = (v', .str ("Error: " ++ msg))
    ∧ (∀ rest, processCalls ts v (call :: rest)
        = ((processCalls ts v' rest).1,
           ⟨call.name, .str ("Error: " ++ msg)⟩ :: (processCalls ts v' rest).2)) := by
  have hd : dispatchTool ts v call = (v', .str ("Error: " ++ msg)) := by
    unfold dispatchTool
    rw [h]
  refine ⟨hd, fun rest => ?_⟩
  rw [processCalls_cons, hd]

/-- C7 witness: a `read_note` of a missing file throws `File not found`,
and the dispatcher feeds back the corresponding error string. -/
theorem tool_error_caught_witness :
    dispatchTool 0 ⟨[], []⟩ ⟨"read_note", { filename := some "nope.md" }⟩
      = (⟨[], []⟩, .str ("Error: " ++ "File not found: nope.md")) :=
  (tool_error_caught 0 ⟨[], []⟩ ⟨[], []⟩ ⟨"read_note", { filename := some "nope.md" }⟩
    "File not found: nope.md" rfl).1

/-- C10: a tool call whose name is none of the seven supported identifiers
does not throw and performs no document-store operation: the vault is
unchanged, the result fed back is `Unknown tool: <name>`, and the loop
continues normally with the remaining calls. -/
theorem unknown_tool_handled (ts : Nat) (v : Vault) (call : FunctionCall)
    (h : call.name ∉ ["list_files", "read_note", "save_note", "update_frontmatter",
      "find_files_by_name", "replace_in_note", "delete_note"]) :
    dispatchTool ts v call = (v, .str ("Unknown tool: " ++ call.name))
    ∧ (∀ rest, processCalls ts v (call :: rest)
        = ((processCalls ts v rest).1,
           ⟨call.name, .str ("Unknown tool: " ++ call.name)⟩
             :: (processCalls ts v rest).2)) := by
  simp only [List.mem_cons, List.not_mem_nil, or_false, not_or] at h
  obtain ⟨h1, h2, h3, h4, h5, h6, h7⟩ := h
  have he : execTool ts v call = (v, .ok (.str ("Unknown tool: " ++ call.name))) := by
    unfold execTool
    rw [if_neg h1, if_neg h2, if_neg h3, if_neg h4, if_neg h5, if_neg h6, if_neg h7]
  have hd : dispatchTool ts v call = (v, .str ("Unknown tool: " ++ call.name)) := by
    unfold dispatchTool
    rw [he]
  refine ⟨hd, fun rest => ?_⟩
  rw [processCalls_cons, hd]

/-- C10 witness: a concrete unrecognized tool name. -/
theorem unknown_tool_handled_witness :
    dispatchTool 0 ⟨[("a.md", "x")], []⟩ ⟨"mystery", {}⟩
      = (⟨[("a.md", "x")], []⟩, .str ("Unknown tool: " ++ "mystery")) :=
  (unknown_tool_handled 0 ⟨[("a.md", "x")], []⟩ ⟨"mystery", {}⟩ (by decide)).1

/-! ## Context injection, final-output failure semantics, provider boundary -/

/-- C4 counterexample: with a non-empty history the context is NOT
prepended to the outgoing prompt; it is instead merged into the FIRST
stored history turn.  With context `C`, history `[user: H]`, prompt `P`,
the outgoing prompt stays `P` and the stored turn is rewritten. -/
theorem context_prepend_cex :
    buildFinalPrompt (some "C") [⟨Role.user, "H"⟩] "P" = "P"
    ∧ buildFinalPrompt (some "C") [⟨Role.user, "H"⟩] "P"
        ≠ "Context:\nC\n\nUser Request: P"
    ∧ buildChatHistory (some "C") [⟨Role.user, "H"⟩]
        = [⟨Role.user, "Context:\nC\n\nUser Request: H"⟩] := by
  refine ⟨rfl, ?_, rfl⟩
  decide

/-- C4 amended: with a truthy (non-null, non-empty) context, when the
history is empty the context is prepended to the outgoing prompt; when the
history is non-empty and its first stored turn is a user turn, the context
is retroactively merged into that first stored history turn and the
outgoing prompt is sent unmodified; when the first stored turn is a model
turn, the context is dropped entirely. -/
theorem context_injection (c prompt : String) (hc : c ≠ "") (history : List Turn) :
    (history = [] →
      buildFinalPrompt (some c) history prompt
          = "Context:\n" ++ c ++ "\n\nUser Request: " ++ prompt
      ∧ buildChatHistory (some c) history = [])
    ∧ (∀ first rest, history = first :: rest → first.role = Role.user →
        buildFinalPrompt (some c) history prompt = prompt
        ∧ buildChatHistory (some c) history
          = { first with text := "Context:\n" ++ c ++ "\n\nUser Request: "
                ++ first.text } :: rest)
    ∧ (∀ first rest, history = first :: rest → first.role = Role.model →
        buildFinalPrompt (some c) history prompt = prompt
        ∧ buildChatHistory (some c) history = history) := by
  refine ⟨?_, ?_, ?_⟩
  · intro hh
    subst hh
    constructor
    · unfold buildFinalPrompt
      rw [if_pos ⟨by simp [ctxTruthy, hc], rfl⟩]
      rfl
    · rfl
  · intro first rest hh hrole
    subst hh
    constructor
    · unfold buildFinalPrompt
      rw [if_neg (fun hand => List.cons_ne_nil first rest hand.2)]
    · simp only [buildChatHistory]
      rw [if_pos ⟨by simp [ctxTruthy, hc], hrole⟩]
      rfl
  · intro first rest hh hrole
    subst hh
    constructor
    · unfold buildFinalPrompt
      rw [if_neg (fun hand => List.cons_ne_nil first rest hand.2)]
    · simp only [buildChatHistory]
      rw [if_neg (fun hand => by rw [hrole] at hand; exact absurd hand.2 (by decide))]

/-- C4 witness: concrete instances of both context placements. -/
theorem context_injection_witness :
    buildFinalPrompt (some "C") [] "P" = "Context:\nC\n\nUser Request: P"
    ∧ buildFinalPrompt (some "C") [⟨Role.user, "H"⟩] "P" = "P"
    ∧ buildChatHistory (some "C") [⟨Role.user, "H"⟩]
        = [⟨Role.user, "Context:\nC\n\nUser Request: H"⟩] := by
  refine ⟨((context_injection "C" "P" (by decide) []).1 rfl).1, ?_, ?_⟩
  · exact ((context_injection "C" "P" (by decide) [⟨Role.user, "H"⟩]).2.1
      ⟨Role.user, "H"⟩ [] rfl rfl).1
  · exact ((context_injection "C" "P" (by decide) [⟨Role.user, "H"⟩]).2.1
      ⟨Role.user, "H"⟩ [] rfl rfl).2

/-- The spec's completion-reason mapping, stated from the specification's
words for comparison with the code's fallback: safety, recitation and
unspecified blocks map to three distinct fixed messages, anything else to
the generic no-response message. -/
def reasonMessageSpec (resp : GeminiResponse) : String :=
  match resp.candidates.head? with
  | some cand =>
    match cand.finishReason with
    | some r =>
      if r = "SAFETY" then
        "Response blocked by safety filters. Please try a different prompt."
      else if r = "RECITATION" then "Response blocked due to recitation check."
      else if r = "OTHER" then
        "Response blocked for unknown reasons (finishReason: OTHER)."
      else
        "Error: No response received from the model. It might be blocked or encountered an error."
    | none =>
      "Error: No response received from the model. It might be blocked or encountered an error."
  | none =>
    "Error: No response received from the model. It might be blocked or encountered an error."

/-- C9 counterexample: when the high-reasoning (Deep Think) option is on
and the response carries a parts array yielding no output, the
finish-reason mapping is bypassed: a safety-blocked response produces the
`Thinking Process not supported` note instead of the fixed safety
message. -/
theorem finish_reason_cex :
    extractFinalOutput ⟨[⟨some [], some "SAFETY"⟩], []⟩ true = deepThinkNote
    ∧ deepThinkNote
        ≠ "Response blocked by safety filters. Please try a different prompt." := by
  refine ⟨rfl, ?_⟩
  decide

/-- C9 amended: when the final response yields no extractable output and
either the candidate carries no content/parts at all or Deep Think was not
requested, `chat()` resolves (the extraction is a total function) to the
fixed message determined by the first candidate's completion reason —
safety, recitation, and `OTHER` blocks each map to their distinct message,
anything else to the generic no-response message — exactly the mapping
written in the specification (`reasonMessageSpec`). -/
theorem empty_response_reason_mapping (resp : GeminiResponse) (deepThink : Bool)
    (h : match resp.candidates.head? with
      | none => True
      | some cand => cand.content = none
          ∨ (∃ ps, cand.content = some ps ∧ ps.foldl partStep ("", "") = ("", "")
              ∧ deepThink = false)) :
    extractFinalOutput resp deepThink = reasonMessageSpec resp := by
  have hfb : finishFallback resp = reasonMessageSpec resp := by
    unfold finishFallback reasonMessageSpec
    cases resp.candidates.head? with
    | none => rfl
    | some cand => rfl
  unfold extractFinalOutput
  cases hh : resp.candidates.head? with
  | none =>
    simp only [hh]
    exact hfb
  | some cand =>
    rw [hh] at h
    simp only [hh]
    rcases h with h | ⟨ps, hps, hfold, hdt⟩
    · simp only [h]
      exact hfb
    · subst hdt
      simp only [hps, hfold]
      simp only [ne_eq, not_true_eq_false, if_false, ite_self]
      exact hfb

/-- C9 witness: a safety-blocked response with no content resolves to the
fixed safety message. -/
theorem empty_response_reason_mapping_witness :
    extractFinalOutput ⟨[⟨none, some "SAFETY"⟩], []⟩ false
      = "Response blocked by safety filters. Please try a different prompt." := by
  have h := empty_response_reason_mapping ⟨[⟨none, some "SAFETY"⟩], []⟩ false
    (Or.inl rfl)
  rw [h]
  rfl

/-- C8 counterexample: the Gemini adapter does not catch errors thrown
while sending — `chat.sendMessage` sits outside every `try` block in
`GeminiService.chat`, so a rejected send propagates out of `chat()` as a
rejection instead of resolving to an `Error: <message>` string. -/
theorem gemini_send_error_cex :
    geminiChat (fun _ => .error "network down") ⟨[], []⟩ 0 "p" [] none false
      = .error "network down" := rfl

/-- C8 amended: the Anthropic and ChatGPT adapters catch network or vendor
errors at the send boundary and resolve to the text `Error: <message>`;
the Gemini adapter does not — an error raised by any of its sends
propagates out of `chat()` as a rejection. -/
theorem provider_error_boundary :
    (∀ msg, anthropicChat (.error msg) = "Error: " ++ msg)
    ∧ (∀ msg, chatgptChat (.error msg) = "Error: " ++ msg)
    ∧ (∀ (msg : String) (oracle : Nat → Except String GeminiResponse)
        (v : Vault) (ts : Nat) (prompt : String) (history : List Turn)
        (context : Option String) (deepThink : Bool), oracle 0 = Except.error msg →
        geminiChat oracle v ts prompt history context deepThink = .error msg) := by
  refine ⟨fun msg => rfl, fun msg => rfl, ?_⟩
  intro msg oracle v ts prompt history context deepThink h0
  unfold geminiChat
  rw [h0]

/-- C8 witness: both catching adapters and the propagating Gemini adapter
at a concrete failing send. -/
theorem provider_error_boundary_witness :
    anthropicChat (.error "boom") = "Error: " ++ "boom"
    ∧ chatgptChat (.error "boom") = "Error: " ++ "boom"
    ∧ geminiChat (fun _ => Except.error "boom") ⟨[], []⟩ 0 "p" [] none false
        = .error "boom" :=
  ⟨provider_error_boundary.1 "boom", provider_error_boundary.2.1 "boom",
   provider_error_boundary.2.2 "boom" (fun _ => Except.error "boom")
     ⟨[], []⟩ 0 "p" [] none false rfl⟩
